import Mathlib

/-!
Verification of the overlay layout engine of the AI-Photo-Translator-Pro
repository: the geometry mapper, the font-fit solver (binary search over a
fit predicate), and the overlay compositor from `src/App.tsx`, together with
the detection-pipeline adapter from `src/services/visionService.ts`.

Numbers are modelled as exact rationals (ℚ): every constant of the source
(12, 40, 4, 0.5, 1.05, 1.2, 1000, 16) is an exactly representable value, and
the claims under study concern the algorithmic structure of the code.
-/

namespace PhotoTranslator

/-- One vertex of a bounding quadrilateral (visionService.ts, BoundingBox). -/
structure Vertex where
  x : ℚ
  y : ℚ
deriving DecidableEq, Repr

/-- Bounding box: list of vertices (visionService.ts, BoundingBox). -/
structure BoundingBox where
  vertices : List Vertex
deriving DecidableEq, Repr

/-- A translated text block as consumed by App.tsx
(visionService.ts, TranslatedBlock).  `orientation` is the literal string
field, "horizontal" or "vertical" in well-formed data. -/
structure TranslatedBlock where
  text : String
  translatedText : String
  orientation : String
  boundingBox : BoundingBox
deriving DecidableEq, Repr

/-- Display-space rectangle (spec §3, derived in App.tsx lines 260-263). -/
structure Rect where
  x : ℚ
  y : ℚ
  width : ℚ
  height : ℚ
deriving DecidableEq, Repr

/-- Result of the fit solver (spec §3 FitResult): the chosen font size in px
and the overflow/scroll flag. -/
structure FitResult where
  fontSizePx : ℚ
  overflow : Bool
deriving DecidableEq, Repr

/-- Math.min spread over a list, as in `Math.min(...vertices.map(...))`.
Only used on nonempty lists (the caller guarantees at least 4 vertices). -/
def listMin : List ℚ → ℚ
  | [] => 0
  | v :: vs => vs.foldl min v

/-- Math.max spread over a list, as in `Math.max(...vertices.map(...))`. -/
def listMax : List ℚ → ℚ
  | [] => 0
  | v :: vs => vs.foldl max v

/-- Geometry mapping, App.tsx lines 260-263:
`x = Math.min(...vertices.map(v => v.x)) * containerWidth / 1000` and the
three analogous formulas.  (`v.x || 0` is the identity on a present numeric
field, since `0 || 0 === 0`.) -/
def mapToDisplay (vertices : List Vertex) (containerWidth containerHeight : ℚ) : Rect :=
  let xs := vertices.map (fun v => v.x)
  let ys := vertices.map (fun v => v.y)
  { x := listMin xs * containerWidth / 1000
    y := listMin ys * containerHeight / 1000
    width := (listMax xs - listMin xs) * containerWidth / 1000
    height := (listMax ys - listMin ys) * containerHeight / 1000 }

/-- The fit predicate `checkFits`, App.tsx lines 280-295.
`21/20 = 1.05` is the 5% glyph-cell safety factor and `6/5 = 1.2` the
safe line height; `isVertical` is captured from the enclosing scope in the
source and passed explicitly here. -/
def checkFits (isVertical : Bool) (size W H : ℚ) (count : ℕ) : Bool :=
  if isVertical then
    let charsPerColumn : ℤ := max ⌊H / (size * (21/20))⌋ 1
    decide ((⌈(count : ℚ) / (charsPerColumn : ℚ)⌉ : ℚ) * size * (6/5) ≤ W)
  else
    let charsPerLine : ℤ := max ⌊W / (size * (21/20))⌋ 1
    decide ((⌈(count : ℚ) / (charsPerLine : ℚ)⌉ : ℚ) * size * (6/5) ≤ H)

/-- Termination measure for the binary-search loop: the interval length
`high - low` shrinks by at least 1/2 per iteration, so twice its ceiling
(plus one) bounds the remaining iterations. -/
def loopMeasure (low high : ℚ) : ℕ := (⌈2 * (high - low)⌉ + 1).toNat

lemma loopMeasure_step_left (low high : ℚ) (h : low ≤ high) :
    loopMeasure ((low + high) / 2 + 1 / 2) high < loopMeasure low high := by
  unfold loopMeasure
  have hd : (0 : ℚ) ≤ high - low := by linarith
  have h1 : 2 * (high - ((low + high) / 2 + 1 / 2)) = (high - low) - 1 := by ring
  rw [h1, Int.ceil_sub_one]
  have h3 : ⌈high - low⌉ ≤ ⌈2 * (high - low)⌉ := Int.ceil_le_ceil (by linarith)
  have h5 : (0 : ℤ) ≤ ⌈high - low⌉ := Int.ceil_nonneg hd
  omega

lemma loopMeasure_step_right (low high : ℚ) (h : low ≤ high) :
    loopMeasure low ((low + high) / 2 - 1 / 2) < loopMeasure low high := by
  unfold loopMeasure
  have hd : (0 : ℚ) ≤ high - low := by linarith
  have h1 : 2 * (((low + high) / 2 - 1 / 2) - low) = (high - low) - 1 := by ring
  rw [h1, Int.ceil_sub_one]
  have h3 : ⌈high - low⌉ ≤ ⌈2 * (high - low)⌉ := Int.ceil_le_ceil (by linarith)
  have h5 : (0 : ℤ) ≤ ⌈high - low⌉ := Int.ceil_nonneg hd
  omega

/-- The binary-search loop of the fit solver, App.tsx lines 298-308:
`while (low <= high) { mid = (low+high)/2; if (checkFits(mid,...)) { bestSize
= mid; low = mid + precision } else { high = mid - precision } }` with
`precision = 0.5`.  `P` is the fit predicate closure; the source's `mid`
binding is inlined. -/
def searchLoop (P : ℚ → Bool) (low high best : ℚ) : ℚ :=
  if h : low ≤ high then
    if P ((low + high) / 2) then
      searchLoop P ((low + high) / 2 + 1 / 2) high ((low + high) / 2)
    else
      searchLoop P low ((low + high) / 2 - 1 / 2) best
  else
    best
termination_by loopMeasure low high
decreasing_by
  · exact loopMeasure_step_left low high h
  · exact loopMeasure_step_right low high h

/-- Number of iterations the binary-search loop performs, with the same
control structure as `searchLoop`. -/
def searchSteps (P : ℚ → Bool) (low high : ℚ) : ℕ :=
  if h : low ≤ high then
    if P ((low + high) / 2) then
      searchSteps P ((low + high) / 2 + 1 / 2) high + 1
    else
      searchSteps P low ((low + high) / 2 - 1 / 2) + 1
  else
    0
termination_by loopMeasure low high
decreasing_by
  · exact loopMeasure_step_left low high h
  · exact loopMeasure_step_right low high h

/-- Padding-reduced target width, App.tsx line 270:
`targetW = Math.max(width - padding, 1)` with `padding = 4`. -/
def targetWOf (r : Rect) : ℚ := max (r.width - 4) 1

/-- Padding-reduced target height, App.tsx line 271. -/
def targetHOf (r : Rect) : ℚ := max (r.height - 4) 1

/-- Upper search bound, App.tsx line 275:
`maxSize = isVertical ? Math.min(40, targetH) : Math.min(40, targetW)`. -/
def maxSizeOf (r : Rect) (isVertical : Bool) : ℚ :=
  if isVertical then min 40 (targetHOf r) else min 40 (targetWOf r)

/-- The fit solver, App.tsx lines 266-312: binary search from `low = minSize
= 12`, `high = maxSize`, `bestSize = 12`, followed by
`shouldScroll = bestSize === 12 && !checkFits(12, targetW, targetH,
charCount)`.  The spec's FitResult packages `bestSize` (as `fontSizePx`) and
`shouldScroll` (as `overflow`). -/
def solve (rect : Rect) (charCount : ℕ) (isVertical : Bool) : FitResult :=
  let targetW := targetWOf rect
  let targetH := targetHOf rect
  let minSize : ℚ := 12
  let maxSize := maxSizeOf rect isVertical
  let bestSize := searchLoop
    (fun s => checkFits isVertical s targetW targetH charCount) minSize maxSize 12
  let shouldScroll := bestSize == 12 && !(checkFits isVertical 12 targetW targetH charCount)
  { fontSizePx := bestSize, overflow := shouldScroll }

lemma one_le_loopMeasure (low high : ℚ) (h : low ≤ high) : 1 ≤ loopMeasure low high := by
  unfold loopMeasure
  have hd : (0 : ℚ) ≤ 2 * (high - low) := by linarith
  have h5 : (0 : ℤ) ≤ ⌈2 * (high - low)⌉ := Int.ceil_nonneg hd
  omega

lemma searchLoop_exit (P : ℚ → Bool) (low high best : ℚ) (h : ¬ low ≤ high) :
    searchLoop P low high best = best := by
  unfold searchLoop
  rw [dif_neg h]

lemma searchLoop_ge_aux (P : ℚ → Bool) (n : ℕ) :
    ∀ low high best, loopMeasure low high ≤ n → best ≤ low →
      best ≤ searchLoop P low high best := by
  induction n with
  | zero =>
    intro low high best hm hb
    by_cases h : low ≤ high
    · exact absurd hm (by have := one_le_loopMeasure low high h; omega)
    · rw [searchLoop_exit P low high best h]
  | succ n ih =>
    intro low high best hm hb
    by_cases h : low ≤ high
    · have hmid : low ≤ (low + high) / 2 := by linarith
      unfold searchLoop
      rw [dif_pos h]
      by_cases hP : P ((low + high) / 2) = true
      · rw [if_pos hP]
        have hstep := loopMeasure_step_left low high h
        have := ih ((low + high) / 2 + 1 / 2) high ((low + high) / 2)
          (by omega) (by linarith)
        linarith
      · rw [if_neg hP]
        have hstep := loopMeasure_step_right low high h
        exact ih low ((low + high) / 2 - 1 / 2) best (by omega) hb
    · rw [searchLoop_exit P low high best h]

/-- The loop result is at least the initial `bestSize` (which is at least
the initial `low`). -/
lemma searchLoop_ge (P : ℚ → Bool) (low high best : ℚ) (hb : best ≤ low) :
    best ≤ searchLoop P low high best :=
  searchLoop_ge_aux P (loopMeasure low high) low high best le_rfl hb

lemma searchLoop_le_aux (P : ℚ → Bool) (n : ℕ) :
    ∀ low high best, loopMeasure low high ≤ n →
      searchLoop P low high best ≤ max best high := by
  induction n with
  | zero =>
    intro low high best hm
    by_cases h : low ≤ high
    · exact absurd hm (by have := one_le_loopMeasure low high h; omega)
    · rw [searchLoop_exit P low high best h]; exact le_max_left _ _
  | succ n ih =>
    intro low high best hm
    by_cases h : low ≤ high
    · have hmid : (low + high) / 2 ≤ high := by linarith
      unfold searchLoop
      rw [dif_pos h]
      by_cases hP : P ((low + high) / 2) = true
      · rw [if_pos hP]
        have hstep := loopMeasure_step_left low high h
        have h2 := ih ((low + high) / 2 + 1 / 2) high ((low + high) / 2) (by omega)
        have h3 : max ((low + high) / 2) high = high := max_eq_right hmid
        rw [h3] at h2
        exact le_trans h2 (le_max_right _ _)
      · rw [if_neg hP]
        have hstep := loopMeasure_step_right low high h
        have h2 := ih low ((low + high) / 2 - 1 / 2) best (by omega)
        exact le_trans h2 (max_le_max le_rfl (by linarith))
    · rw [searchLoop_exit P low high best h]; exact le_max_left _ _

/-- The loop result never exceeds `max best high`. -/
lemma searchLoop_le (P : ℚ → Bool) (low high best : ℚ) :
    searchLoop P low high best ≤ max best high :=
  searchLoop_le_aux P (loopMeasure low high) low high best le_rfl

lemma searchLoop_none_aux (P : ℚ → Bool) (n : ℕ) :
    ∀ low high best, loopMeasure low high ≤ n →
      (∀ s, low ≤ s → P s = false) → searchLoop P low high best = best := by
  induction n with
  | zero =>
    intro low high best hm _
    by_cases h : low ≤ high
    · exact absurd hm (by have := one_le_loopMeasure low high h; omega)
    · exact searchLoop_exit P low high best h
  | succ n ih =>
    intro low high best hm hfail
    by_cases h : low ≤ high
    · have hmid : low ≤ (low + high) / 2 := by linarith
      unfold searchLoop
      rw [dif_pos h]
      have hP : ¬ P ((low + high) / 2) = true := by
        rw [hfail ((low + high) / 2) hmid]; simp
      rw [if_neg hP]
      have hstep := loopMeasure_step_right low high h
      exact ih low ((low + high) / 2 - 1 / 2) best (by omega) hfail
    · exact searchLoop_exit P low high best h

/-- When the predicate fails at every size at or above `low`, the loop
returns the initial `bestSize` unchanged. -/
lemma searchLoop_none (P : ℚ → Bool) (low high best : ℚ)
    (hfail : ∀ s, low ≤ s → P s = false) : searchLoop P low high best = best :=
  searchLoop_none_aux P (loopMeasure low high) low high best le_rfl hfail

lemma searchLoop_spec_aux (P : ℚ → Bool) (n : ℕ) :
    ∀ low high best, loopMeasure low high ≤ n →
      searchLoop P low high best = best ∨ P (searchLoop P low high best) = true := by
  induction n with
  | zero =>
    intro low high best hm
    by_cases h : low ≤ high
    · exact absurd hm (by have := one_le_loopMeasure low high h; omega)
    · exact Or.inl (searchLoop_exit P low high best h)
  | succ n ih =>
    intro low high best hm
    by_cases h : low ≤ high
    · unfold searchLoop
      rw [dif_pos h]
      by_cases hP : P ((low + high) / 2) = true
      · rw [if_pos hP]
        have hstep := loopMeasure_step_left low high h
        rcases ih ((low + high) / 2 + 1 / 2) high ((low + high) / 2) (by omega) with heq | hfit
        · exact Or.inr (by rw [heq]; exact hP)
        · exact Or.inr hfit
      · rw [if_neg hP]
        have hstep := loopMeasure_step_right low high h
        exact ih low ((low + high) / 2 - 1 / 2) best (by omega)
    · exact Or.inl (searchLoop_exit P low high best h)

/-- The loop result is either the initial `bestSize` or a size at which the
predicate holds. -/
lemma searchLoop_spec (P : ℚ → Bool) (low high best : ℚ) :
    searchLoop P low high best = best ∨ P (searchLoop P low high best) = true :=
  searchLoop_spec_aux P (loopMeasure low high) low high best le_rfl

lemma searchLoop_mono_aux (P1 P2 : ℚ → Bool) (b0 : ℚ)
    (hP : ∀ s, b0 ≤ s → P2 s = true → P1 s = true) (n : ℕ) :
    ∀ low high best, loopMeasure low high ≤ n → best ≤ low → b0 ≤ low →
      searchLoop P2 low high best ≤ searchLoop P1 low high best := by
  induction n with
  | zero =>
    intro low high best hm hb hb0
    by_cases h : low ≤ high
    · exact absurd hm (by have := one_le_loopMeasure low high h; omega)
    · rw [searchLoop_exit P2 low high best h, searchLoop_exit P1 low high best h]
  | succ n ih =>
    intro low high best hm hb hb0
    by_cases h : low ≤ high
    · have hmid : low ≤ (low + high) / 2 := by linarith
      have hstepl := loopMeasure_step_left low high h
      have hstepr := loopMeasure_step_right low high h
      conv_lhs => unfold searchLoop
      conv_rhs => unfold searchLoop
      rw [dif_pos h, dif_pos h]
      by_cases hP2 : P2 ((low + high) / 2) = true
      · have hP1 : P1 ((low + high) / 2) = true := hP _ (le_trans hb0 hmid) hP2
        rw [if_pos hP2, if_pos hP1]
        exact ih ((low + high) / 2 + 1 / 2) high ((low + high) / 2)
          (by omega) (by linarith) (by linarith [le_trans hb0 hmid])
      · rw [if_neg hP2]
        by_cases hP1 : P1 ((low + high) / 2) = true
        · rw [if_pos hP1]
          have hle : searchLoop P2 low ((low + high) / 2 - 1 / 2) best ≤
              max best ((low + high) / 2 - 1 / 2) := searchLoop_le P2 _ _ _
          have hge : (low + high) / 2 ≤
              searchLoop P1 ((low + high) / 2 + 1 / 2) high ((low + high) / 2) :=
            searchLoop_ge P1 _ _ _ (by linarith)
          have hmax : max best ((low + high) / 2 - 1 / 2) ≤ (low + high) / 2 :=
            max_le (by linarith) (by linarith)
          linarith
        · rw [if_neg hP1]
          exact ih low ((low + high) / 2 - 1 / 2) best (by omega) hb hb0
    · rw [searchLoop_exit P2 low high best h, searchLoop_exit P1 low high best h]

/-- Comparison of two runs of the loop: a (pointwise, above the base bound
`b0`) harder predicate `P2` can never yield a larger result than an easier
predicate `P1`. -/
lemma searchLoop_mono (P1 P2 : ℚ → Bool) (b0 : ℚ)
    (hP : ∀ s, b0 ≤ s → P2 s = true → P1 s = true) (low high best : ℚ)
    (hb : best ≤ low) (hb0 : b0 ≤ low) :
    searchLoop P2 low high best ≤ searchLoop P1 low high best :=
  searchLoop_mono_aux P1 P2 b0 hP (loopMeasure low high) low high best le_rfl hb hb0

lemma searchSteps_le_aux (P : ℚ → Bool) (n : ℕ) :
    ∀ low high, loopMeasure low high ≤ n →
      searchSteps P low high ≤ loopMeasure low high := by
  induction n with
  | zero =>
    intro low high hm
    by_cases h : low ≤ high
    · exact absurd hm (by have := one_le_loopMeasure low high h; omega)
    · unfold searchSteps; rw [dif_neg h]; omega
  | succ n ih =>
    intro low high hm
    by_cases h : low ≤ high
    · have hstepl := loopMeasure_step_left low high h
      have hstepr := loopMeasure_step_right low high h
      unfold searchSteps
      rw [dif_pos h]
      by_cases hP : P ((low + high) / 2) = true
      · rw [if_pos hP]
        have := ih ((low + high) / 2 + 1 / 2) high (by omega)
        omega
      · rw [if_neg hP]
        have := ih low ((low + high) / 2 - 1 / 2) (by omega)
        omega
    · unfold searchSteps; rw [dif_neg h]; omega

/-- Iteration-count bound: the loop runs at most `loopMeasure low high`
times. -/
lemma searchSteps_le (P : ℚ → Bool) (low high : ℚ) :
    searchSteps P low high ≤ loopMeasure low high :=
  searchSteps_le_aux P (loopMeasure low high) low high le_rfl

lemma needed_anti_size (W lim : ℚ) (c : ℕ) (s1 s2 : ℚ) (hW : 0 ≤ W)
    (h1 : 0 < s1) (h12 : s1 ≤ s2)
    (h : (⌈(c : ℚ) / ((max ⌊W / (s2 * (21/20))⌋ 1 : ℤ) : ℚ)⌉ : ℚ) * s2 * (6/5) ≤ lim) :
    (⌈(c : ℚ) / ((max ⌊W / (s1 * (21/20))⌋ 1 : ℤ) : ℚ)⌉ : ℚ) * s1 * (6/5) ≤ lim := by
  have h2 : (0 : ℚ) < s2 := lt_of_lt_of_le h1 h12
  have hden : W / (s2 * (21/20)) ≤ W / (s1 * (21/20)) := by
    rw [div_le_div_iff₀ (by positivity) (by positivity)]
    have := mul_le_mul_of_nonneg_left h12 hW
    linarith
  have hm : (max ⌊W / (s2 * (21/20))⌋ 1) ≤ (max ⌊W / (s1 * (21/20))⌋ 1) :=
    max_le_max (Int.floor_le_floor hden) le_rfl
  have h1m2 : (1 : ℤ) ≤ max ⌊W / (s2 * (21/20))⌋ 1 := le_max_right _ _
  have hm2Q : (0 : ℚ) < ((max ⌊W / (s2 * (21/20))⌋ 1 : ℤ) : ℚ) := by
    exact_mod_cast lt_of_lt_of_le zero_lt_one h1m2
  have hmQ : ((max ⌊W / (s2 * (21/20))⌋ 1 : ℤ) : ℚ) ≤
      ((max ⌊W / (s1 * (21/20))⌋ 1 : ℤ) : ℚ) := by exact_mod_cast hm
  have hdivle : (c : ℚ) / ((max ⌊W / (s1 * (21/20))⌋ 1 : ℤ) : ℚ) ≤
      (c : ℚ) / ((max ⌊W / (s2 * (21/20))⌋ 1 : ℤ) : ℚ) := by
    rw [div_le_div_iff₀ (lt_of_lt_of_le hm2Q hmQ) hm2Q]
    have hc0 : (0 : ℚ) ≤ (c : ℚ) := by positivity
    have := mul_le_mul_of_nonneg_left hmQ hc0
    linarith
  have hceil := Int.ceil_le_ceil hdivle
  have hceil0 : (0 : ℤ) ≤ ⌈(c : ℚ) / ((max ⌊W / (s2 * (21/20))⌋ 1 : ℤ) : ℚ)⌉ :=
    Int.ceil_nonneg (div_nonneg (by positivity) hm2Q.le)
  have hA : ((⌈(c : ℚ) / ((max ⌊W / (s1 * (21/20))⌋ 1 : ℤ) : ℚ)⌉ : ℤ) : ℚ) ≤
      ((⌈(c : ℚ) / ((max ⌊W / (s2 * (21/20))⌋ 1 : ℤ) : ℚ)⌉ : ℤ) : ℚ) := by
    exact_mod_cast hceil
  have hA0 : (0 : ℚ) ≤ ((⌈(c : ℚ) / ((max ⌊W / (s2 * (21/20))⌋ 1 : ℤ) : ℚ)⌉ : ℤ) : ℚ) := by
    exact_mod_cast hceil0
  have hmul : ((⌈(c : ℚ) / ((max ⌊W / (s1 * (21/20))⌋ 1 : ℤ) : ℚ)⌉ : ℤ) : ℚ) * s1 ≤
      ((⌈(c : ℚ) / ((max ⌊W / (s2 * (21/20))⌋ 1 : ℤ) : ℚ)⌉ : ℤ) : ℚ) * s2 :=
    mul_le_mul hA h12 h1.le hA0
  linarith

lemma needed_anti_count (W lim s : ℚ) (c1 c2 : ℕ) (hs : 0 ≤ s) (hc : c1 ≤ c2)
    (h : (⌈(c2 : ℚ) / ((max ⌊W / (s * (21/20))⌋ 1 : ℤ) : ℚ)⌉ : ℚ) * s * (6/5) ≤ lim) :
    (⌈(c1 : ℚ) / ((max ⌊W / (s * (21/20))⌋ 1 : ℤ) : ℚ)⌉ : ℚ) * s * (6/5) ≤ lim := by
  have h1m : (1 : ℤ) ≤ max ⌊W / (s * (21/20))⌋ 1 := le_max_right _ _
  have hmQ : (0 : ℚ) < ((max ⌊W / (s * (21/20))⌋ 1 : ℤ) : ℚ) := by
    exact_mod_cast lt_of_lt_of_le zero_lt_one h1m
  have hdivle : (c1 : ℚ) / ((max ⌊W / (s * (21/20))⌋ 1 : ℤ) : ℚ) ≤
      (c2 : ℚ) / ((max ⌊W / (s * (21/20))⌋ 1 : ℤ) : ℚ) := by
    rw [div_le_div_iff_of_pos_right hmQ]
    exact_mod_cast hc
  have hceil := Int.ceil_le_ceil hdivle
  have hA : ((⌈(c1 : ℚ) / ((max ⌊W / (s * (21/20))⌋ 1 : ℤ) : ℚ)⌉ : ℤ) : ℚ) ≤
      ((⌈(c2 : ℚ) / ((max ⌊W / (s * (21/20))⌋ 1 : ℤ) : ℚ)⌉ : ℤ) : ℚ) := by
    exact_mod_cast hceil
  have hmul : ((⌈(c1 : ℚ) / ((max ⌊W / (s * (21/20))⌋ 1 : ℤ) : ℚ)⌉ : ℤ) : ℚ) * s ≤
      ((⌈(c2 : ℚ) / ((max ⌊W / (s * (21/20))⌋ 1 : ℤ) : ℚ)⌉ : ℤ) : ℚ) * s :=
    mul_le_mul_of_nonneg_right hA hs
  linarith

/-- The fit predicate is antitone in the font size: a smaller (positive)
size fits whenever a larger one does. -/
lemma checkFits_anti_size (o : Bool) (W H : ℚ) (c : ℕ) (hW : 0 ≤ W) (hH : 0 ≤ H)
    (s1 s2 : ℚ) (h1 : 0 < s1) (h12 : s1 ≤ s2)
    (hfit : checkFits o s2 W H c = true) : checkFits o s1 W H c = true := by
  cases o with
  | false =>
    simp only [checkFits, Bool.false_eq_true, if_false, decide_eq_true_eq] at hfit ⊢
    exact needed_anti_size W H c s1 s2 hW h1 h12 hfit
  | true =>
    simp only [checkFits, if_true, decide_eq_true_eq] at hfit ⊢
    exact needed_anti_size H W c s1 s2 hH h1 h12 hfit

/-- The fit predicate is antitone in the character count: fewer characters
fit whenever more do. -/
lemma checkFits_anti_count (o : Bool) (W H s : ℚ) (c1 c2 : ℕ) (hs : 0 ≤ s)
    (hc : c1 ≤ c2) (hfit : checkFits o s W H c2 = true) :
    checkFits o s W H c1 = true := by
  cases o with
  | false =>
    simp only [checkFits, Bool.false_eq_true, if_false, decide_eq_true_eq] at hfit ⊢
    exact needed_anti_count W H s c1 c2 hs hc hfit
  | true =>
    simp only [checkFits, if_true, decide_eq_true_eq] at hfit ⊢
    exact needed_anti_count H W s c1 c2 hs hc hfit

lemma solve_fontSizePx_def (r : Rect) (c : ℕ) (o : Bool) :
    (solve r c o).fontSizePx =
      searchLoop (fun s => checkFits o s (targetWOf r) (targetHOf r) c)
        12 (maxSizeOf r o) 12 := rfl

lemma solve_overflow_def (r : Rect) (c : ℕ) (o : Bool) :
    (solve r c o).overflow =
      (((solve r c o).fontSizePx == 12) &&
        !(checkFits o 12 (targetWOf r) (targetHOf r) c)) := rfl

/-- Character count used by the solver, App.tsx line 266:
`const charCount = block.translatedText.length || 1` (an empty string is
falsy, so the count for it is 1). -/
def charCountOf (s : String) : ℕ := if s.length = 0 then 1 else s.length

/-- One renderable overlay descriptor (spec §3 OverlayDescriptor): the
absolutely positioned, styled text box emitted per valid detection in
App.tsx lines 314-351. -/
structure OverlayDescriptor where
  x : ℚ
  y : ℚ
  width : ℚ
  height : ℚ
  fontSizeRem : ℚ
  overflow : Bool
  isVertical : Bool
  text : String
  translatedText : String
deriving DecidableEq, Repr

/-- The per-block overlay computation of App.tsx lines 256-351 for a block
with a valid quadrilateral: geometry mapping, fit solving
(`finalRem = bestSize / rootFontSize` with `rootFontSize = 16`), and the
rendering flags. -/
def descriptorOf (containerWidth containerHeight : ℚ) (block : TranslatedBlock) :
    OverlayDescriptor :=
  let r := mapToDisplay block.boundingBox.vertices containerWidth containerHeight
  let isVertical := block.orientation == "vertical"
  let fit := solve r (charCountOf block.translatedText) isVertical
  { x := r.x
    y := r.y
    width := r.width
    height := r.height
    fontSizeRem := fit.fontSizePx / 16
    overflow := fit.overflow
    isVertical := isVertical
    text := block.text
    translatedText := block.translatedText }

/-- One step of the overlay map, App.tsx lines 252-254:
`if (!vertices || vertices.length < 4) return null;` and otherwise the
rendered descriptor. -/
def composeBlock (containerWidth containerHeight : ℚ) (block : TranslatedBlock) :
    Option OverlayDescriptor :=
  if block.boundingBox.vertices.length < 4 then none
  else some (descriptorOf containerWidth containerHeight block)

/-- The overlay compositor: `translatedBlocks.map(...)` with the null
entries dropped from the rendered list (App.tsx line 252). -/
def compose (blocks : List TranslatedBlock) (containerWidth containerHeight : ℚ) :
    List OverlayDescriptor :=
  blocks.filterMap (composeBlock containerWidth containerHeight)

/-- The layout-relevant fields of a descriptor (everything except the text
payload carried through unchanged). -/
def layoutOf (d : OverlayDescriptor) : ℚ × ℚ × ℚ × ℚ × ℚ × Bool × Bool :=
  (d.x, d.y, d.width, d.height, d.fontSizeRem, d.overflow, d.isVertical)

/-- A raw detection as parsed from the model response
(visionService.ts lines 62-64): the schema yields `text`, `translatedText`,
a free-form `orientation` string and `box_2d = [ymin, xmin, ymax, xmax]`. -/
structure RawBlock where
  text : String
  translatedText : String
  orientation : String
  box_2d : List ℚ
deriving DecidableEq, Repr

/-- The adapter of visionService.ts lines 63-73: destructures `box_2d`,
normalizes `orientation` via
`b.orientation === "vertical" ? "vertical" : "horizontal"`, and builds the
four-corner quadrilateral.  (A schema-conformant payload has exactly four
entries in `box_2d`.) -/
def adaptBlock (b : RawBlock) : TranslatedBlock :=
  let ymin := b.box_2d.getD 0 0
  let xmin := b.box_2d.getD 1 0
  let ymax := b.box_2d.getD 2 0
  let xmax := b.box_2d.getD 3 0
  { text := b.text
    translatedText := b.translatedText
    orientation := if b.orientation == "vertical" then "vertical" else "horizontal"
    boundingBox :=
      { vertices := [⟨xmin, ymin⟩, ⟨xmax, ymin⟩, ⟨xmax, ymax⟩, ⟨xmin, ymax⟩] } }

/-- The detection pipeline adapter, visionService.ts line 63:
`rawBlocks.map(b => ...)`. -/
def performOCRAndTranslate (rawBlocks : List RawBlock) : List TranslatedBlock :=
  rawBlocks.map adaptBlock

/-- Claim C1, counterexample: the returned font size is NOT always bounded
by the orientation-dependent ceiling `maxFontSize = min(40, targetW)`.  For
the rectangle with width 5 and height 100 (horizontal, one character),
`maxFontSize = min(40, max(5-4,1)) = 1`, yet the solver returns the minimum
size 12 because the search interval `[12, 1]` is empty and `bestSize` keeps
its initial value. -/
theorem c1_ceiling_counterexample :
    ¬ ((solve ⟨0, 0, 5, 100⟩ 1 false).fontSizePx ≤ maxSizeOf ⟨0, 0, 5, 100⟩ false) := by
  have hmax : maxSizeOf ⟨0, 0, 5, 100⟩ false = 1 := by
    norm_num [maxSizeOf, targetWOf, min_def, max_def]
  have hfont : (solve ⟨0, 0, 5, 100⟩ 1 false).fontSizePx = 12 := by
    rw [solve_fontSizePx_def, hmax]
    exact searchLoop_exit _ 12 1 12 (by norm_num)
  rw [hfont, hmax]
  norm_num

/-- Claim C1 (amended): for every input rectangle, character count and
orientation, `12 ≤ fontSizePx ≤ 40`, and `fontSizePx` never exceeds
`max(minFontSize, maxFontSize)` where `maxFontSize = min(40, targetH)`
(vertical) or `min(40, targetW)` (horizontal); when `maxFontSize < 12` the
solver still returns 12, so the ceiling only holds relative to the minimum
size. -/
theorem c1_bounds_amended (r : Rect) (c : ℕ) (o : Bool) :
    12 ≤ (solve r c o).fontSizePx ∧ (solve r c o).fontSizePx ≤ 40 ∧
      (solve r c o).fontSizePx ≤ max 12 (maxSizeOf r o) := by
  rw [solve_fontSizePx_def]
  have hle := searchLoop_le
    (fun s => checkFits o s (targetWOf r) (targetHOf r) c) 12 (maxSizeOf r o) 12
  have hmax40 : maxSizeOf r o ≤ 40 := by
    unfold maxSizeOf; split <;> exact min_le_left _ _
  refine ⟨searchLoop_ge _ 12 _ 12 le_rfl, ?_, hle⟩
  exact le_trans hle (max_le (by norm_num) hmax40)

/-- Claim C2, counterexample: `overflow = true` is NOT equivalent to "no
size in the search range `[minFontSize, maxFontSize]` satisfies the fit
predicate".  For the rectangle with width 5 and height 100 (horizontal, one
character) the range `[12, 1]` is empty — so no size in it fits — yet the
solver reports `overflow = false`, because a single character at size 12
passes `checkFits` even though 12 lies outside the (empty) range. -/
theorem c2_overflow_counterexample :
    ¬ (((solve ⟨0, 0, 5, 100⟩ 1 false).overflow = true) ↔
      ¬ ∃ s, 12 ≤ s ∧ s ≤ maxSizeOf ⟨0, 0, 5, 100⟩ false ∧
        checkFits false s (targetWOf ⟨0, 0, 5, 100⟩) (targetHOf ⟨0, 0, 5, 100⟩) 1 = true) := by
  have hmax : maxSizeOf ⟨0, 0, 5, 100⟩ false = 1 := by
    norm_num [maxSizeOf, targetWOf, min_def, max_def]
  have htW : targetWOf ⟨0, 0, 5, 100⟩ = 1 := by norm_num [targetWOf, max_def]
  have htH : targetHOf ⟨0, 0, 5, 100⟩ = 96 := by norm_num [targetHOf, max_def]
  have hfont : (solve ⟨0, 0, 5, 100⟩ 1 false).fontSizePx = 12 := by
    rw [solve_fontSizePx_def, hmax]
    exact searchLoop_exit _ 12 1 12 (by norm_num)
  have hfit12 : checkFits false 12 (targetWOf ⟨0, 0, 5, 100⟩) (targetHOf ⟨0, 0, 5, 100⟩) 1
      = true := by
    rw [htW, htH]
    simp only [checkFits, Bool.false_eq_true, if_false, decide_eq_true_eq]
    norm_num
  have hov : (solve ⟨0, 0, 5, 100⟩ 1 false).overflow = false := by
    rw [solve_overflow_def, hfont, hfit12]
    simp
  intro hiff
  have hrhs : ¬ ∃ s, 12 ≤ s ∧ s ≤ maxSizeOf ⟨0, 0, 5, 100⟩ false ∧
      checkFits false s (targetWOf ⟨0, 0, 5, 100⟩) (targetHOf ⟨0, 0, 5, 100⟩) 1 = true := by
    rintro ⟨s, hs1, hs2, -⟩
    rw [hmax] at hs2
    linarith
  have := hiff.mpr hrhs
  rw [hov] at this
  exact Bool.noConfusion this

/-- Claim C2 (amended): `overflow = true` iff the fit predicate fails at
every size at or above the minimum size 12 (equivalently, by antitonicity of
the predicate, iff it fails at 12 itself); whenever `overflow = true` the
returned `fontSizePx` equals the minimum size 12; and whenever
`overflow = false`, `fits(fontSizePx)` holds for the returned size. -/
theorem c2_overflow_amended (r : Rect) (c : ℕ) (o : Bool) :
    ((solve r c o).overflow = true ↔
      (∀ s, 12 ≤ s → checkFits o s (targetWOf r) (targetHOf r) c = false)) ∧
    ((solve r c o).overflow = true → (solve r c o).fontSizePx = 12) ∧
    ((solve r c o).overflow = false →
      checkFits o (solve r c o).fontSizePx (targetWOf r) (targetHOf r) c = true) := by
  have hW : (0 : ℚ) ≤ targetWOf r := le_trans zero_le_one (le_max_right _ _)
  have hH : (0 : ℚ) ≤ targetHOf r := le_trans zero_le_one (le_max_right _ _)
  refine ⟨⟨?_, ?_⟩, ?_, ?_⟩
  · intro hovt s hs
    rw [solve_overflow_def] at hovt
    simp only [Bool.and_eq_true, beq_iff_eq, Bool.not_eq_true'] at hovt
    cases hb : checkFits o s (targetWOf r) (targetHOf r) c with
    | false => rfl
    | true =>
      have h12 := checkFits_anti_size o _ _ c hW hH 12 s (by norm_num) hs hb
      rw [hovt.2] at h12
      exact Bool.noConfusion h12
  · intro hall
    have h12 : checkFits o 12 (targetWOf r) (targetHOf r) c = false := hall 12 le_rfl
    have hbest : (solve r c o).fontSizePx = 12 := by
      rw [solve_fontSizePx_def]
      exact searchLoop_none _ 12 _ 12 (fun s hs => hall s hs)
    rw [solve_overflow_def, hbest, h12]
    simp
  · intro hovt
    rw [solve_overflow_def] at hovt
    simp only [Bool.and_eq_true, beq_iff_eq, Bool.not_eq_true'] at hovt
    exact hovt.1
  · intro hovf
    rcases searchLoop_spec (fun s => checkFits o s (targetWOf r) (targetHOf r) c)
      12 (maxSizeOf r o) 12 with heq | hfit
    · have hfs12 : (solve r c o).fontSizePx = 12 := by
        rw [solve_fontSizePx_def]; exact heq
      rw [solve_overflow_def, hfs12] at hovf
      rw [hfs12]
      simpa using hovf
    · rw [solve_fontSizePx_def]
      exact hfit

/-- Claim C2, witness for the amended theorem at the concrete overflow
example: rectangle 20x20, 200 characters, horizontal. -/
theorem c2_overflow_amended_witness :
    (((solve ⟨0, 0, 20, 20⟩ 200 false).overflow = true ↔
      (∀ s, 12 ≤ s →
        checkFits false s (targetWOf ⟨0, 0, 20, 20⟩) (targetHOf ⟨0, 0, 20, 20⟩) 200 = false)) ∧
    ((solve ⟨0, 0, 20, 20⟩ 200 false).overflow = true →
      (solve ⟨0, 0, 20, 20⟩ 200 false).fontSizePx = 12) ∧
    ((solve ⟨0, 0, 20, 20⟩ 200 false).overflow = false →
      checkFits false (solve ⟨0, 0, 20, 20⟩ 200 false).fontSizePx
        (targetWOf ⟨0, 0, 20, 20⟩) (targetHOf ⟨0, 0, 20, 20⟩) 200 = true)) :=
  c2_overflow_amended ⟨0, 0, 20, 20⟩ 200 false

/-- Claim C4: for a fixed rectangle and orientation, increasing the
character count never increases the returned font size. -/
theorem c4_charcount_monotone (r : Rect) (o : Bool) (c1 c2 : ℕ) (hc : c1 ≤ c2) :
    (solve r c2 o).fontSizePx ≤ (solve r c1 o).fontSizePx := by
  rw [solve_fontSizePx_def, solve_fontSizePx_def]
  exact searchLoop_mono
    (fun s => checkFits o s (targetWOf r) (targetHOf r) c1)
    (fun s => checkFits o s (targetWOf r) (targetHOf r) c2) 12
    (fun s hs hfit => checkFits_anti_count o _ _ s c1 c2 (by linarith) hc hfit)
    12 (maxSizeOf r o) 12 le_rfl le_rfl

/-- Claim C4, witness at a concrete input: 2 versus 5 characters in a
300x200 rectangle. -/
theorem c4_charcount_monotone_witness :
    (2 : ℕ) ≤ 5 ∧
    (solve ⟨0, 0, 300, 200⟩ 5 false).fontSizePx ≤
      (solve ⟨0, 0, 300, 200⟩ 2 false).fontSizePx :=
  ⟨by norm_num, c4_charcount_monotone ⟨0, 0, 300, 200⟩ false 2 5 (by norm_num)⟩

/-- Claim C5: the fit solver and the whole overlay recomputation are
deterministic — equal inputs give equal outputs (both are pure functions of
their arguments). -/
theorem c5_deterministic (r r' : Rect) (c c' : ℕ) (o o' : Bool)
    (blocks blocks' : List TranslatedBlock) (w w' h h' : ℚ)
    (hr : r = r') (hc : c = c') (ho : o = o') (hb : blocks = blocks')
    (hw : w = w') (hh : h = h') :
    solve r c o = solve r' c' o' ∧ compose blocks w h = compose blocks' w' h' := by
  subst hr hc ho hb hw hh
  exact ⟨rfl, rfl⟩

/-- Claim C5, witness at concrete inputs. -/
theorem c5_deterministic_witness :
    solve ⟨0, 0, 20, 20⟩ 3 true = solve ⟨0, 0, 20, 20⟩ 3 true ∧
    compose [] 100 100 = compose [] 100 100 :=
  c5_deterministic ⟨0, 0, 20, 20⟩ ⟨0, 0, 20, 20⟩ 3 3 true true [] [] 100 100 100 100
    rfl rfl rfl rfl rfl rfl

/-- Claim C6: for the 20x20 rectangle, horizontal orientation and 200
characters, the solver returns `fontSizePx = 12` and `overflow = true`. -/
theorem c6_overflow_example :
    (solve ⟨0, 0, 20, 20⟩ 200 false).fontSizePx = 12 ∧
    (solve ⟨0, 0, 20, 20⟩ 200 false).overflow = true := by
  have htW : targetWOf ⟨0, 0, 20, 20⟩ = 16 := by norm_num [targetWOf, max_def]
  have htH : targetHOf ⟨0, 0, 20, 20⟩ = 16 := by norm_num [targetHOf, max_def]
  have h12 : checkFits false 12 (targetWOf ⟨0, 0, 20, 20⟩) (targetHOf ⟨0, 0, 20, 20⟩) 200
      = false := by
    rw [htW, htH]
    simp only [checkFits, Bool.false_eq_true, if_false, decide_eq_false_iff_not]
    norm_num
  have hfail : ∀ s, (12 : ℚ) ≤ s →
      checkFits false s (targetWOf ⟨0, 0, 20, 20⟩) (targetHOf ⟨0, 0, 20, 20⟩) 200 = false := by
    intro s hs
    cases hb : checkFits false s (targetWOf ⟨0, 0, 20, 20⟩) (targetHOf ⟨0, 0, 20, 20⟩) 200 with
    | false => rfl
    | true =>
      have hW : (0 : ℚ) ≤ targetWOf ⟨0, 0, 20, 20⟩ := by rw [htW]; norm_num
      have hH : (0 : ℚ) ≤ targetHOf ⟨0, 0, 20, 20⟩ := by rw [htH]; norm_num
      have := checkFits_anti_size false _ _ 200 hW hH 12 s (by norm_num) hs hb
      rw [h12] at this
      exact Bool.noConfusion this
  have hfont : (solve ⟨0, 0, 20, 20⟩ 200 false).fontSizePx = 12 := by
    rw [solve_fontSizePx_def]
    exact searchLoop_none _ 12 _ 12 hfail
  refine ⟨hfont, ?_⟩
  rw [solve_overflow_def, hfont, h12]
  simp

/-- Claim C3: the geometry mapping takes the minimum/maximum of the
quadrilateral's coordinates scaled by containerSize/1000, and on the quad
`[(100,100),(400,100),(400,300),(100,300)]` with a 1000x1000 container it
yields the rectangle `{x:100, y:100, width:300, height:200}`. -/
theorem c3_geometry (p1 p2 p3 p4 : Vertex) (cw ch : ℚ) :
    mapToDisplay [p1, p2, p3, p4] cw ch =
      { x := min (min (min p1.x p2.x) p3.x) p4.x * cw / 1000
        y := min (min (min p1.y p2.y) p3.y) p4.y * ch / 1000
        width := (max (max (max p1.x p2.x) p3.x) p4.x -
          min (min (min p1.x p2.x) p3.x) p4.x) * cw / 1000
        height := (max (max (max p1.y p2.y) p3.y) p4.y -
          min (min (min p1.y p2.y) p3.y) p4.y) * ch / 1000 } ∧
    mapToDisplay [⟨100, 100⟩, ⟨400, 100⟩, ⟨400, 300⟩, ⟨100, 300⟩] 1000 1000 =
      { x := 100, y := 100, width := 300, height := 200 } := by
  constructor
  · rfl
  · simp only [mapToDisplay, listMin, listMax, List.map_cons, List.map_nil,
      List.foldl_cons, List.foldl_nil, Rect.mk.injEq]
    norm_num [min_def, max_def]

lemma compose_eq_filter_map (cw ch : ℚ) :
    ∀ blocks : List TranslatedBlock,
      compose blocks cw ch =
        (blocks.filter (fun x => decide (4 ≤ x.boundingBox.vertices.length))).map
          (descriptorOf cw ch) := by
  intro blocks
  induction blocks with
  | nil => rfl
  | cons hd tl ih =>
    unfold compose at ih ⊢
    rw [List.filterMap_cons, List.filter_cons]
    by_cases h : hd.boundingBox.vertices.length < 4
    · have hd4 : (decide (4 ≤ hd.boundingBox.vertices.length)) = false := by
        simp; omega
      rw [composeBlock, if_pos h, hd4]
      simpa using ih
    · have hd4 : (decide (4 ≤ hd.boundingBox.vertices.length)) = true := by
        simp; omega
      rw [composeBlock, if_neg h, hd4]
      simp only [if_true, List.map_cons]
      rw [ih]

lemma filter_length_partition (p : TranslatedBlock → Prop) [DecidablePred p] :
    ∀ blocks : List TranslatedBlock,
      (blocks.filter (fun x => decide (p x))).length +
        (blocks.filter (fun x => decide (¬ p x))).length = blocks.length := by
  intro blocks
  induction blocks with
  | nil => rfl
  | cons hd tl ih =>
    rw [List.filter_cons, List.filter_cons]
    by_cases h : p hd
    · rw [if_pos (by simpa using h), if_neg (by simpa using h)]
      simp only [List.length_cons]
      omega
    · rw [if_neg (by simpa using h), if_pos (by simpa using h)]
      simp only [List.length_cons]
      omega

/-- Claim C7: composing N detections yields N minus the number of
degenerate entries, in input order (the compositor is the mapped list with
degenerate entries dropped); a detection with fewer than 4 quad vertices
yields no descriptor, is skipped silently, and does not affect the
descriptors of the other detections. -/
theorem c7_compose_order (cw ch : ℚ) (blocks l1 l2 : List TranslatedBlock)
    (b : TranslatedBlock) (hdeg : b.boundingBox.vertices.length < 4) :
    (compose blocks cw ch).length =
      blocks.length -
        (blocks.filter (fun x => decide (x.boundingBox.vertices.length < 4))).length ∧
    compose blocks cw ch =
      (blocks.filter (fun x => decide (4 ≤ x.boundingBox.vertices.length))).map
        (descriptorOf cw ch) ∧
    composeBlock cw ch b = none ∧
    compose (l1 ++ b :: l2) cw ch = compose (l1 ++ l2) cw ch ∧
    compose (l1 ++ l2) cw ch = compose l1 cw ch ++ compose l2 cw ch := by
  have hnone : composeBlock cw ch b = none := by
    rw [composeBlock, if_pos hdeg]
  refine ⟨?_, compose_eq_filter_map cw ch blocks, hnone, ?_, ?_⟩
  · rw [compose_eq_filter_map cw ch blocks, List.length_map]
    have hpart := filter_length_partition (fun x => x.boundingBox.vertices.length < 4) blocks
    have hcongr :
        (blocks.filter (fun x => decide (¬ x.boundingBox.vertices.length < 4))).length =
        (blocks.filter (fun x => decide (4 ≤ x.boundingBox.vertices.length))).length := by
      congr 1
      apply List.filter_congr
      intro x _
      simp only [decide_eq_decide]
      omega
    omega
  · unfold compose
    rw [List.filterMap_append, List.filterMap_append, List.filterMap_cons, hnone]
  · unfold compose
    rw [List.filterMap_append]

/-- Claim C7, witness at a concrete degenerate block (empty vertex list)
with empty sibling lists. -/
theorem c7_compose_order_witness :
    (⟨"t", "tt", "horizontal", ⟨[]⟩⟩ : TranslatedBlock).boundingBox.vertices.length < 4 ∧
    ((compose [] 1000 1000).length =
      ([] : List TranslatedBlock).length -
        (([] : List TranslatedBlock).filter
          (fun x => decide (x.boundingBox.vertices.length < 4))).length ∧
    compose [] 1000 1000 =
      (([] : List TranslatedBlock).filter
        (fun x => decide (4 ≤ x.boundingBox.vertices.length))).map
        (descriptorOf 1000 1000) ∧
    composeBlock 1000 1000 ⟨"t", "tt", "horizontal", ⟨[]⟩⟩ = none ∧
    compose ([] ++ (⟨"t", "tt", "horizontal", ⟨[]⟩⟩ : TranslatedBlock) :: []) 1000 1000 =
      compose ([] ++ []) 1000 1000 ∧
    compose (([] : List TranslatedBlock) ++ []) 1000 1000 =
      compose [] 1000 1000 ++ compose [] 1000 1000) :=
  ⟨by decide,
    c7_compose_order 1000 1000 [] [] [] ⟨"t", "tt", "horizontal", ⟨[]⟩⟩ (by decide)⟩

/-- Claim C8: the binary-search loop always terminates, within the fixed
iteration bound given by `loopMeasure` in general, and within 57 iterations
for every range the fit solver actually uses (`low = 12`,
`high = maxSize ≤ 40`, interval length at most 28, step at least 0.5). -/
theorem c8_loop_bounded :
    (∀ (P : ℚ → Bool) (low high : ℚ), searchSteps P low high ≤ loopMeasure low high) ∧
    (∀ (r : Rect) (c : ℕ) (o : Bool),
      searchSteps (fun s => checkFits o s (targetWOf r) (targetHOf r) c)
        12 (maxSizeOf r o) ≤ 57) := by
  refine ⟨searchSteps_le, ?_⟩
  intro r c o
  have h1 := searchSteps_le
    (fun s => checkFits o s (targetWOf r) (targetHOf r) c) 12 (maxSizeOf r o)
  have hmax : maxSizeOf r o ≤ 40 := by
    unfold maxSizeOf; split <;> exact min_le_left _ _
  have h2 : loopMeasure 12 (maxSizeOf r o) ≤ 57 := by
    unfold loopMeasure
    have h3 : 2 * (maxSizeOf r o - 12) ≤ (56 : ℚ) := by linarith
    have h4 : ⌈2 * (maxSizeOf r o - 12)⌉ ≤ ⌈(56 : ℚ)⌉ := Int.ceil_le_ceil h3
    have h5 : ⌈(56 : ℚ)⌉ = 56 := by norm_num
    omega
  omega

/-- Claim C9: the detection adapter maps the raw orientation string to
"vertical" exactly when it equals "vertical", and to "horizontal" in every
other case (the output is always one of the two values). -/
theorem c9_orientation_normalized (b : RawBlock) :
    ((adaptBlock b).orientation = "vertical" ↔ b.orientation = "vertical") ∧
    ((adaptBlock b).orientation = "vertical" ∨
      (adaptBlock b).orientation = "horizontal") := by
  by_cases h : b.orientation = "vertical"
  · simp [adaptBlock, h]
  · simp [adaptBlock, h]

/-- Claim C9, witness at a concrete raw block with a misspelled
orientation. -/
theorem c9_orientation_normalized_witness :
    ((adaptBlock ⟨"t", "tt", "Vertical", [0, 0, 10, 10]⟩).orientation = "vertical" ↔
      ("Vertical" : String) = "vertical") ∧
    ((adaptBlock ⟨"t", "tt", "Vertical", [0, 0, 10, 10]⟩).orientation = "vertical" ∨
      (adaptBlock ⟨"t", "tt", "Vertical", [0, 0, 10, 10]⟩).orientation = "horizontal") :=
  c9_orientation_normalized ⟨"t", "tt", "Vertical", [0, 0, 10, 10]⟩

/-- Claim C10: an empty translated string is laid out with character count
1 — the solver never receives a count of 0, and the layout fields of the
overlay for an empty translation equal those for any one-character
translation of the same block. -/
theorem c10_empty_translation (cw ch : ℚ) (b : TranslatedBlock) (s : String)
    (hempty : b.translatedText = "") (hone : s.length = 1) :
    charCountOf b.translatedText = 1 ∧
    (∀ t : String, 1 ≤ charCountOf t) ∧
    Option.map layoutOf (composeBlock cw ch b) =
      Option.map layoutOf (composeBlock cw ch { b with translatedText := s }) := by
  have h1 : charCountOf b.translatedText = 1 := by rw [hempty]; rfl
  have hcc : charCountOf s = 1 := by
    unfold charCountOf
    rw [hone]
    norm_num
  refine ⟨h1, ?_, ?_⟩
  · intro t
    unfold charCountOf
    split <;> omega
  · unfold composeBlock
    by_cases hdeg : b.boundingBox.vertices.length < 4
    · rw [if_pos hdeg, if_pos hdeg]
    · rw [if_neg hdeg, if_neg hdeg]
      unfold descriptorOf layoutOf
      simp only [Option.map_some', h1, hcc]

/-- Claim C10, witness at a concrete block with empty translation and the
one-character replacement "a". -/
theorem c10_empty_translation_witness :
    (⟨"t", "", "horizontal", ⟨[⟨0, 0⟩, ⟨10, 0⟩, ⟨10, 10⟩, ⟨0, 10⟩]⟩⟩ :
        TranslatedBlock).translatedText = "" ∧
    ("a" : String).length = 1 ∧
    (charCountOf (⟨"t", "", "horizontal", ⟨[⟨0, 0⟩, ⟨10, 0⟩, ⟨10, 10⟩, ⟨0, 10⟩]⟩⟩ :
        TranslatedBlock).translatedText = 1 ∧
    (∀ t : String, 1 ≤ charCountOf t) ∧
    Option.map layoutOf
        (composeBlock 500 500
          ⟨"t", "", "horizontal", ⟨[⟨0, 0⟩, ⟨10, 0⟩, ⟨10, 10⟩, ⟨0, 10⟩]⟩⟩) =
      Option.map layoutOf
        (composeBlock 500 500
          { (⟨"t", "", "horizontal", ⟨[⟨0, 0⟩, ⟨10, 0⟩, ⟨10, 10⟩, ⟨0, 10⟩]⟩⟩ :
              TranslatedBlock) with translatedText := "a" })) :=
  ⟨rfl, rfl,
    c10_empty_translation 500 500
      ⟨"t", "", "horizontal", ⟨[⟨0, 0⟩, ⟨10, 0⟩, ⟨10, 10⟩, ⟨0, 10⟩]⟩⟩ "a" rfl rfl⟩

end PhotoTranslator
